import Mathlib

/-!
Shallow embedding of the gdoc2doc query-matching pipeline.

Go strings are modelled as `List Char` (the sources only manipulate ASCII
metacharacters, where Go's byte-wise and Unicode operations agree with the
character-wise model).  Each definition below embeds one Go function or one
self-contained portion of a Go function, named after its source symbol.
-/

namespace Gdoc

/-- Whitespace test used by Go's `strings.TrimSpace` (ASCII portion of
`unicode.IsSpace`). -/
def isSpaceChar (c : Char) : Bool :=
  c = ' ' || c = '\t' || c = '\n' || c = '\x0b' || c = '\x0c' || c = '\r'

/-- Embeds Go `strings.TrimSpace`: drop whitespace from both ends. -/
def trimSpace (s : List Char) : List Char :=
  ((s.dropWhile isSpaceChar).reverse.dropWhile isSpaceChar).reverse

/-- Embeds Go `strings.HasPrefix`: does `s` start with `p`? -/
def startsWith : List Char → List Char → Bool
  | _, [] => true
  | [], _ :: _ => false
  | c :: cs, p :: ps => c = p && startsWith cs ps

/-- Embeds Go `strings.TrimPrefix`: remove the leading occurrence of `p`
from `s` when present, otherwise return `s` unchanged. -/
def trimPrefixL (s p : List Char) : List Char :=
  if startsWith s p then s.drop p.length else s

/-- Embeds Go `strings.Contains`: does `s` contain `sub` as a contiguous
substring? -/
def containsStr : List Char → List Char → Bool
  | [], sub => sub.isEmpty
  | c :: cs, sub => startsWith (c :: cs) sub || containsStr cs sub

/-- Embeds Go `strings.ToLower` (ASCII case mapping). -/
def toLowerStr (s : List Char) : List Char :=
  s.map Char.toLower

/-- Embeds Go `strings.EqualFold` (on ASCII, simple case folding agrees with
comparing the lowercased strings). -/
def equalFold (a b : List Char) : Bool :=
  toLowerStr a = toLowerStr b

/-- Helper for `splitLines`: accumulates the current segment (reversed). -/
def splitLinesAux : List Char → List Char → List (List Char)
  | [], acc => [acc.reverse]
  | c :: cs, acc =>
    if c = '\n' then acc.reverse :: splitLinesAux cs []
    else splitLinesAux cs (c :: acc)

/-- Embeds Go `strings.Split(content, "\n")`. -/
def splitLines (s : List Char) : List (List Char) :=
  splitLinesAux s []

/-- Embeds the Go struct `GoogleDocument` (google_drive.go). -/
structure GoogleDocument where
  id : List Char
  name : List Char
  description : List Char
  modifiedAt : List Char
  createdAt : List Char
deriving DecidableEq

/-- Embeds the Go struct `ExportFormat` (google_drive.go). -/
structure ExportFormat where
  mimeType : List Char
  extension : List Char
deriving DecidableEq

/-- Embeds the response shape of `TogetherResponse` (together_filter.go):
the list of completion contents (`Choices[i].Message.Content`) and the
optional error message. -/
structure TogetherResponse where
  choices : List (List Char)
  error : Option (List Char)
deriving DecidableEq

/-- Embeds together_filter.go lines 137-139: when the line has length > 3 and
its characters at indices 1 and 2 are '.' and ' ', drop the first three
characters (`cleaned = cleaned[3:]`). -/
def stripNumPre1 : List Char → List Char
  | a :: b :: c :: d :: rest =>
    if b = '.' ∧ c = ' ' then d :: rest else a :: b :: c :: d :: rest
  | s => s

/-- Embeds together_filter.go lines 140-142: when the line has length > 4 and
its characters at indices 2 and 3 are '.' and ' ', drop the first four
characters (`cleaned = cleaned[4:]`). -/
def stripNumPre2 : List Char → List Char
  | a :: b :: c :: d :: e :: rest =>
    if c = '.' ∧ d = ' ' then e :: rest else a :: b :: c :: d :: e :: rest
  | s => s

/-- Embeds together_filter.go lines 134-135: `TrimPrefix(cleaned, "- ")`
followed by `TrimPrefix(cleaned, "* ")`. -/
def stripBullets (s : List Char) : List Char :=
  trimPrefixL (trimPrefixL s "- ".data) "* ".data

/-- Embeds the per-line cleanup of `FilterDocuments`
(together_filter.go lines 132-143): trim, strip bullets, strip the two
numeric-dot shapes in sequence, trim again. -/
def cleanLine (line : List Char) : List Char :=
  trimSpace (stripNumPre2 (stripNumPre1 (stripBullets (trimSpace line))))

/-- Embeds the response-handling portion of `FilterDocuments`
(together_filter.go lines 112-150): everything after the HTTP body has been
unmarshalled into a `TogetherResponse`.  The network call itself is I/O and
is outside the embedding. -/
def filterDocumentsParse (response : TogetherResponse) :
    Except (List Char) (List (List Char)) :=
  match response.error with
  | some message => Except.error ("API error: ".data ++ message)
  | none =>
    match response.choices with
    | [] => Except.error "no response from AI model".data
    | first :: _ =>
      let content := trimSpace first
      if content = "NONE".data ∨ content = [] then Except.ok []
      else
        Except.ok (((splitLines content).map cleanLine).filter
          (fun cleaned => cleaned ≠ [] && cleaned ≠ "NONE".data))

/-- Embeds the document-list loop of `FilterDocuments`
(together_filter.go lines 52-59), carrying the running zero-based index:
each iteration appends `"<index+1>. <name>"`, then `" - <description>"` when
the description is non-empty, then a newline. -/
def buildDocListAux : Nat → List GoogleDocument → List Char
  | _, [] => []
  | index, document :: rest =>
    ((toString (index + 1)).data ++ ". ".data ++ document.name
      ++ (if document.description ≠ [] then " - ".data ++ document.description
          else [])
      ++ "\n".data)
      ++ buildDocListAux (index + 1) rest

/-- The full enumerated document section of the prompt (`documentList` in
together_filter.go). -/
def buildDocumentList (documents : List GoogleDocument) : List Char :=
  buildDocListAux 0 documents

/-- Modelled from the spec's wording for claim comparison: the single prompt
line for a document with the given 1-based index, of the form
`"<index>. <name>"` with `" - <description>"` appended exactly when the
description is non-empty. -/
def specDocLine (position : Nat) (document : GoogleDocument) : List Char :=
  (toString position).data ++ ". ".data ++ document.name
    ++ (if document.description = [] then [] else " - ".data ++ document.description)
    ++ "\n".data

/-- Embeds the match test of `FindMatchingDocuments` (together_filter.go
line 160): exact case-insensitive equality or lowercased containment. -/
def matchesName (document : GoogleDocument) (name : List Char) : Bool :=
  equalFold document.name name
    || containsStr (toLowerStr document.name) (toLowerStr name)

/-- Embeds the inner candidate loop of `FindMatchingDocuments`
(together_filter.go lines 158-164): scan the candidate names and stop at the
first one that matches. -/
def anyNameMatches (document : GoogleDocument) : List (List Char) → Bool
  | [] => false
  | name :: rest =>
    if matchesName document name then true else anyNameMatches document rest

/-- Embeds `FindMatchingDocuments` (together_filter.go lines 154-168): walk
the documents in fetched order, include a document when some candidate name
matches it, at most once per document. -/
def FindMatchingDocuments :
    List GoogleDocument → List (List Char) → List GoogleDocument
  | [], _ => []
  | document :: rest, matchingNames =>
    if anyNameMatches document matchingNames then
      document :: FindMatchingDocuments rest matchingNames
    else
      FindMatchingDocuments rest matchingNames

/-- The nine invalid filename characters of `SanitizeFilename`
(google_drive.go), in source order. -/
def invalidChars : List Char :=
  ['\\', '/', ':', '*', '?', '"', '<', '>', '|']

/-- Embeds one `strings.ReplaceAll(result, char, "_")` step for a
single-character pattern: replace every occurrence of `pat` by `rep`. -/
def replaceAllChar (pat rep : Char) : List Char → List Char
  | [] => []
  | c :: cs => (if c = pat then rep else c) :: replaceAllChar pat rep cs

/-- Embeds `SanitizeFilename` (google_drive.go lines 149-156): fold the nine
replacement passes over the name in source order. -/
def SanitizeFilename (name : List Char) : List Char :=
  invalidChars.foldl (fun result char => replaceAllChar char '_' result) name

/-- Embeds the filename computation of `exportDocument` (main.go):
`SanitizeFilename(document.Name) + format.Extension`. -/
def exportFilename (document : GoogleDocument) (format : ExportFormat) :
    List Char :=
  SanitizeFilename document.name ++ format.extension

/-! ## Helper lemmas -/

/-- `startsWith s p` holds exactly when `s` decomposes as `p ++ u`. -/
theorem startsWith_iff : ∀ (s p : List Char), startsWith s p = true ↔ ∃ u, s = p ++ u
  | s, [] => by
    simp only [startsWith, List.nil_append, true_iff]
    exact ⟨s, rfl⟩
  | [], _ :: _ => by simp [startsWith]
  | c :: cs, p :: ps => by
    simp only [startsWith, Bool.and_eq_true, decide_eq_true_eq, List.cons_append]
    constructor
    · rintro ⟨rfl, h⟩
      obtain ⟨u, rfl⟩ := (startsWith_iff cs ps).mp h
      exact ⟨u, rfl⟩
    · rintro ⟨u, h⟩
      injection h with h1 h2
      subst h1
      exact ⟨rfl, (startsWith_iff cs ps).mpr ⟨u, h2⟩⟩

/-- `containsStr s sub` holds exactly when `sub` occurs as a contiguous
substring of `s`. -/
theorem containsStr_iff : ∀ (s sub : List Char),
    containsStr s sub = true ↔ ∃ t u, s = t ++ sub ++ u
  | [], sub => by
    simp only [containsStr, List.isEmpty_iff]
    constructor
    · rintro rfl
      exact ⟨[], [], rfl⟩
    · rintro ⟨t, u, h⟩
      rcases List.append_eq_nil.mp h.symm with ⟨h1, h2⟩
      rcases List.append_eq_nil.mp h1 with ⟨-, h3⟩
      exact h3
  | c :: cs, sub => by
    simp only [containsStr, Bool.or_eq_true]
    rw [startsWith_iff, containsStr_iff cs sub]
    constructor
    · rintro (⟨u, h⟩ | ⟨t, u, h⟩)
      · exact ⟨[], u, by simpa using h⟩
      · exact ⟨c :: t, u, by simp [h]⟩
    · rintro ⟨t, u, h⟩
      match t, h with
      | [], h => exact Or.inl ⟨u, by simpa using h⟩
      | x :: xs, h =>
        rw [List.cons_append, List.cons_append] at h
        injection h with h1 h2
        exact Or.inr ⟨xs, u, by simpa using h2⟩

/-- Every string contains the empty string. -/
theorem containsStr_nil : ∀ s : List Char, containsStr s [] = true
  | [] => rfl
  | c :: cs => by simp [containsStr, startsWith]

/-- `equalFold` compares the lowercased strings. -/
theorem equalFold_iff (a b : List Char) :
    equalFold a b = true ↔ toLowerStr a = toLowerStr b := by
  simp [equalFold]

/-- The match test of line 160 in terms of case folding and substring
decomposition. -/
theorem matchesName_iff (d : GoogleDocument) (n : List Char) :
    matchesName d n = true ↔
      toLowerStr d.name = toLowerStr n ∨
        ∃ t u, toLowerStr d.name = t ++ toLowerStr n ++ u := by
  rw [matchesName, Bool.or_eq_true, equalFold_iff, containsStr_iff]

/-- The first-match inner loop succeeds exactly when some candidate
matches. -/
theorem anyNameMatches_iff (d : GoogleDocument) :
    ∀ names : List (List Char),
      anyNameMatches d names = true ↔ ∃ n ∈ names, matchesName d n = true
  | [] => by simp [anyNameMatches]
  | n :: ns => by
    rw [anyNameMatches]
    split
    · next h =>
      simp only [true_iff]
      exact ⟨n, List.mem_cons_self n ns, h⟩
    · next h =>
      rw [anyNameMatches_iff d ns]
      constructor
      · rintro ⟨m, hm, hmatch⟩
        exact ⟨m, List.mem_cons_of_mem n hm, hmatch⟩
      · rintro ⟨m, hm, hmatch⟩
        rcases List.mem_cons.mp hm with rfl | hm2
        · exact absurd hmatch (by simpa using h)
        · exact ⟨m, hm2, hmatch⟩

/-- The document loop with inner break is a filter over the fetched list. -/
theorem find_eq_filter :
    ∀ (docs : List GoogleDocument) (names : List (List Char)),
      FindMatchingDocuments docs names
        = docs.filter (fun d => anyNameMatches d names)
  | [], _ => rfl
  | d :: ds, names => by
    rw [FindMatchingDocuments, List.filter_cons, find_eq_filter ds names]

/-- A single-character `ReplaceAll` pass is a pointwise map. -/
theorem replaceAllChar_eq_map (pat rep : Char) :
    ∀ s : List Char, replaceAllChar pat rep s = s.map (fun c => if c = pat then rep else c)
  | [] => rfl
  | c :: cs => by
    rw [replaceAllChar, List.map_cons, replaceAllChar_eq_map pat rep cs]

/-- Folding the replacement passes over the string is a map of the folded
character function. -/
theorem foldl_replace_eq_map (l : List Char) (s : List Char) :
    l.foldl (fun result char => replaceAllChar char '_' result) s
      = s.map (fun c => l.foldl (fun y char => if y = char then '_' else y) c) := by
  induction l generalizing s with
  | nil => simp
  | cons c l ih =>
    rw [List.foldl_cons, replaceAllChar_eq_map, ih, List.map_map]
    rfl

/-- When the replacement character is not itself a pattern, sequentially
replacing each pattern by it sends a character to the replacement exactly
when the character is one of the patterns. -/
theorem foldl_if_mem (x : Char) :
    ∀ l : List Char, '_' ∉ l →
      l.foldl (fun y char => if y = char then '_' else y) x
        = if x ∈ l then '_' else x
  | [], _ => by simp
  | c :: l, h => by
    have hl : '_' ∉ l := fun hm => h (List.mem_cons_of_mem c hm)
    have hc : ('_' : Char) ≠ c := fun he => h (he ▸ List.mem_cons_self c l)
    rw [List.foldl_cons]
    by_cases hx : x = c
    · subst hx
      rw [if_pos rfl, foldl_if_mem '_' l hl, if_neg hl,
        if_pos (List.mem_cons_self x l)]
    · rw [if_neg hx, foldl_if_mem x l hl]
      by_cases hm : x ∈ l
      · rw [if_pos hm, if_pos (List.mem_cons_of_mem c hm)]
      · rw [if_neg hm, if_neg (by simp [List.mem_cons, hx, hm])]

/-- `SanitizeFilename` replaces each invalid character independently and
leaves every other character unchanged. -/
theorem sanitize_eq_map (s : List Char) :
    SanitizeFilename s = s.map (fun c => if c ∈ invalidChars then '_' else c) := by
  rw [SanitizeFilename, foldl_replace_eq_map]
  exact List.map_congr_left fun c _ => foldl_if_mem c invalidChars (by decide)

/-- The prompt builder, started at any index, emits the spec-shaped line for
each enumerated document. -/
theorem buildDocListAux_eq :
    ∀ (docs : List GoogleDocument) (start : Nat),
      buildDocListAux start docs
        = List.flatten ((List.enumFrom start docs).map
            (fun p => specDocLine (p.1 + 1) p.2))
  | [], _ => rfl
  | d :: ds, start => by
    rw [buildDocListAux, List.enumFrom_cons, List.map_cons, List.flatten_cons,
      buildDocListAux_eq ds (start + 1)]
    congr 2
    by_cases hd : d.description = []
    · simp [specDocLine, hd]
    · simp [specDocLine, hd]

/-! ## Claim theorems -/

/-- Claim C1: reconciliation includes a document exactly when some candidate
name equals its display name case-insensitively or, lowercased, occurs as a
substring of its lowercased display name; since scanning stops at the first
matching candidate, each document occurrence is included at most once. -/
theorem claim1_findMatching_membership (docs : List GoogleDocument)
    (names : List (List Char)) (d : GoogleDocument) :
    (d ∈ FindMatchingDocuments docs names ↔
      d ∈ docs ∧ ∃ n ∈ names,
        toLowerStr d.name = toLowerStr n ∨
          ∃ t u, toLowerStr d.name = t ++ toLowerStr n ++ u)
    ∧ (FindMatchingDocuments docs names).count d ≤ docs.count d := by
  constructor
  · rw [find_eq_filter, List.mem_filter, anyNameMatches_iff]
    simp only [matchesName_iff]
  · rw [find_eq_filter]
    exact (List.filter_sublist docs).count_le d

/-- Claim C2: the result of `FindMatchingDocuments` is a subsequence of the
input document list — every element is one of the fetched records, the
order follows the original list order, and no occurrence is duplicated. -/
theorem claim2_findMatching_sublist (docs : List GoogleDocument)
    (names : List (List Char)) :
    List.Sublist (FindMatchingDocuments docs names) docs := by
  rw [find_eq_filter]
  exact List.filter_sublist docs

/-- Claim C3: the parser strips a leading three-character block when the line
is longer than 3 characters with '.' at index 1 and ' ' at index 2, then on
that result separately strips a leading four-character block when it is
longer than 4 characters with '.' at index 2 and ' ' at index 3; applied in
sequence, the line "1. Dr. Smith" is re-stripped down to "Smith". -/
theorem claim3_numeric_strips :
    (∀ s : List Char, stripNumPre1 s =
        if 3 < s.length ∧ s[1]? = some '.' ∧ s[2]? = some ' '
        then s.drop 3 else s)
    ∧ (∀ s : List Char, stripNumPre2 s =
        if 4 < s.length ∧ s[2]? = some '.' ∧ s[3]? = some ' '
        then s.drop 4 else s)
    ∧ cleanLine "1. Dr. Smith".data = "Smith".data := by
  refine ⟨?_, ?_, by decide⟩
  · intro s
    match s with
    | [] => simp [stripNumPre1]
    | [a] => simp [stripNumPre1]
    | [a, b] => simp [stripNumPre1]
    | [a, b, c] => simp [stripNumPre1]
    | a :: b :: c :: d :: rest =>
      rw [stripNumPre1]
      by_cases hb : b = '.' <;> by_cases hc : c = ' ' <;>
        simp [hb, hc, List.length_cons]
  · intro s
    match s with
    | [] => simp [stripNumPre2]
    | [a] => simp [stripNumPre2]
    | [a, b] => simp [stripNumPre2]
    | [a, b, c] => simp [stripNumPre2]
    | [a, b, c, d] => simp [stripNumPre2]
    | a :: b :: c :: d :: e :: rest =>
      rw [stripNumPre2]
      by_cases hc : c = '.' <;> by_cases hd : d = ' ' <;>
        simp [hc, hd, List.length_cons]

/-- Claim C4 counterexample: on the line "- * Example Doc" the code strips
both the "- " marker and the following "* " marker, yielding "Example Doc"
rather than the "* Example Doc" the claim predicts. -/
theorem claim4_counterexample :
    stripBullets "- * Example Doc".data = "Example Doc".data
    ∧ cleanLine "- * Example Doc".data = "Example Doc".data
    ∧ "Example Doc".data ≠ "* Example Doc".data := by
  decide

/-- Claim C4 as amended: the "- " strip is applied first and the "* " strip
is then applied to its result, so a line beginning "- * " loses both
markers; the line "- Example Doc" still yields "Example Doc". -/
theorem claim4_amended :
    (∀ rest : List Char,
        stripBullets ('-' :: ' ' :: rest) = trimPrefixL rest "* ".data)
    ∧ (∀ rest : List Char,
        stripBullets ('-' :: ' ' :: '*' :: ' ' :: rest) = rest)
    ∧ cleanLine "- Example Doc".data = "Example Doc".data := by
  refine ⟨?_, ?_, by decide⟩
  · intro rest
    have h1 : trimPrefixL ('-' :: ' ' :: rest) "- ".data = rest := by
      simp [trimPrefixL, startsWith]
    rw [stripBullets, h1]
  · intro rest
    have h1 : trimPrefixL ('-' :: ' ' :: '*' :: ' ' :: rest) "- ".data
        = '*' :: ' ' :: rest := by
      simp [trimPrefixL, startsWith]
    have h2 : trimPrefixL ('*' :: ' ' :: rest) "* ".data = rest := by
      simp [trimPrefixL, startsWith]
    rw [stripBullets, h1, h2]

/-- Claim C5: when the response has no error field, has a first completion,
and that completion's trimmed content is "NONE" or empty, the parser returns
the empty candidate set, not an error. -/
theorem claim5_none_or_empty_content (response : TogetherResponse)
    (first : List Char) (rest : List (List Char))
    (herr : response.error = none)
    (hchoices : response.choices = first :: rest)
    (hcontent : trimSpace first = "NONE".data ∨ trimSpace first = []) :
    filterDocumentsParse response = Except.ok [] := by
  obtain ⟨choices, error⟩ := response
  simp only at herr hchoices
  subst herr
  subst hchoices
  rw [filterDocumentsParse]
  exact if_pos hcontent

/-- Claim C5 witness: a concrete response whose only completion is
"  NONE " parses to the empty candidate set. -/
theorem claim5_witness :
    (TogetherResponse.mk ["  NONE ".data] none).error = none
    ∧ (TogetherResponse.mk ["  NONE ".data] none).choices = ["  NONE ".data]
    ∧ (trimSpace "  NONE ".data = "NONE".data ∨ trimSpace "  NONE ".data = [])
    ∧ filterDocumentsParse ⟨["  NONE ".data], none⟩ = Except.ok [] :=
  ⟨rfl, rfl, by decide,
    claim5_none_or_empty_content ⟨["  NONE ".data], none⟩ "  NONE ".data []
      rfl rfl (by decide)⟩

/-- Claim C6: a response that parses with no error field but zero
completions fails with the distinct "no response" error rather than
returning an empty result. -/
theorem claim6_zero_completions (response : TogetherResponse)
    (herr : response.error = none) (hchoices : response.choices = []) :
    filterDocumentsParse response
      = Except.error "no response from AI model".data := by
  obtain ⟨choices, error⟩ := response
  simp only at herr hchoices
  subst herr
  subst hchoices
  rfl

/-- Claim C6 witness: the concrete zero-completion response yields the
"no response" error. -/
theorem claim6_witness :
    (TogetherResponse.mk [] none).error = none
    ∧ (TogetherResponse.mk [] none).choices = []
    ∧ filterDocumentsParse ⟨[], none⟩
        = Except.error "no response from AI model".data :=
  ⟨rfl, rfl, claim6_zero_completions ⟨[], none⟩ rfl rfl⟩

/-- Claim C7: the enumerated document section of the prompt is exactly one
line per document in list order, "<index>. <name>" with a 1-based index and
" - <description>" appended exactly when the description is non-empty. -/
theorem claim7_prompt_document_lines (documents : List GoogleDocument) :
    buildDocumentList documents
      = List.flatten (documents.enum.map (fun p => specDocLine (p.1 + 1) p.2)) :=
  buildDocListAux_eq documents 0

/-- Claim C8: `SanitizeFilename` replaces each occurrence of each of the
nine invalid characters independently with an underscore and leaves all
other characters unchanged; "Report: Q1/Q2?" maps to "Report_ Q1_Q2_", and
the format suffix is appended afterwards by the export filename. -/
theorem claim8_sanitize_chars :
    (∀ s : List Char,
        SanitizeFilename s = s.map (fun c => if c ∈ invalidChars then '_' else c))
    ∧ SanitizeFilename "Report: Q1/Q2?".data = "Report_ Q1_Q2_".data
    ∧ exportFilename ⟨"doc1".data, "Report: Q1/Q2?".data, [], [], []⟩
        ⟨"application/pdf".data, ".pdf".data⟩ = "Report_ Q1_Q2_.pdf".data :=
  ⟨sanitize_eq_map, by decide, by decide⟩

/-- Claim C9: when the candidate list contains the empty string, every
document is included, because every lowercased display name contains the
empty string as a substring. -/
theorem claim9_empty_candidate_matches_all (docs : List GoogleDocument)
    (names : List (List Char)) (h : ([] : List Char) ∈ names) :
    FindMatchingDocuments docs names = docs := by
  rw [find_eq_filter]
  refine List.filter_eq_self.mpr fun d _ => ?_
  rw [anyNameMatches_iff]
  refine ⟨[], h, ?_⟩
  rw [matchesName, Bool.or_eq_true]
  exact Or.inr (containsStr_nil (toLowerStr d.name))

/-- Claim C9 witness: with the single candidate "" the one-document list is
returned whole. -/
theorem claim9_witness :
    ([] : List Char) ∈ [([] : List Char)] ∧
      FindMatchingDocuments [⟨"d1".data, "Alpha".data, [], [], []⟩] [[]]
        = [⟨"d1".data, "Alpha".data, [], [], []⟩] :=
  ⟨List.mem_singleton.mpr rfl,
    claim9_empty_candidate_matches_all _ _ (List.mem_singleton.mpr rfl)⟩

/-- Claim C10: `SanitizeFilename` is idempotent, because the replacement
character '_' is not among the nine replaced characters. -/
theorem claim10_sanitize_idempotent (s : List Char) :
    SanitizeFilename (SanitizeFilename s) = SanitizeFilename s := by
  rw [sanitize_eq_map, sanitize_eq_map, List.map_map]
  refine List.map_congr_left fun c _ => ?_
  by_cases h : c ∈ invalidChars
  · simp [Function.comp, h]
  · simp [Function.comp, h]

end Gdoc
